import Mathlib

/-!
Verification development for the task-list web application (`webapp/app.py`).

Strings are modelled as `List Char`.  Python's `str.strip`, `str.lstrip`,
`str.find`, `in`, `str.replace(old, new, 1)` and `str.splitlines` are given
executable models, as are the five regular expressions of the source
(`PROJECT_RE`, `CONTEXT_RE`, `DUE_RE`, `LINK_RE`, `ID_RE`) and the
completion-marker pattern `COMPLETION_RE`.  Regex search is modelled as the
leftmost position at which the (backtracking-free) pattern matches, exactly as
Python's `re.search` behaves on these patterns.  Whitespace (`\s`, `strip`) is
modelled on its ASCII part; non-ASCII Unicode whitespace does not occur in the
inputs this development evaluates, and `str.lower` is modelled by
`Char.toLower` (ASCII case mapping).
-/

namespace TodosApp

/-- Whitespace test modelling Python's default `strip` characters and the
regex class `\s` (ASCII part). -/
def pySpace (c : Char) : Bool :=
  c == ' ' || c == '\t' || c == '\n' || c == '\r' || c == '\x0b' || c == '\x0c'

/-- Python `s.lstrip()`. -/
def pyLstrip (s : List Char) : List Char := s.dropWhile pySpace

/-- Python `s.rstrip()`. -/
def pyRstrip (s : List Char) : List Char := (s.reverse.dropWhile pySpace).reverse

/-- Python `s.strip()`. -/
def pyStrip (s : List Char) : List Char := pyRstrip (pyLstrip s)

/-- Python `s.find(sub)`: index of the first occurrence of `sub` in `s`,
`none` standing for Python's `-1`. -/
def pyFind (s sub : List Char) : Option Nat :=
  match s with
  | [] => if List.isPrefixOf sub [] then some 0 else none
  | c :: cs =>
    if List.isPrefixOf sub (c :: cs) then some 0
    else (pyFind cs sub).map (· + 1)

/-- Python `sub in s`. -/
def pyContains (sub s : List Char) : Bool :=
  match s with
  | [] => List.isPrefixOf sub []
  | c :: cs => List.isPrefixOf sub (c :: cs) || pyContains sub cs

/-- Python `s.replace(old, new, 1)`: replace the first occurrence only. -/
def replaceOne (old new : List Char) : List Char → List Char
  | [] => if List.isPrefixOf old [] then new else []
  | c :: cs =>
    if List.isPrefixOf old (c :: cs) then new ++ (c :: cs).drop old.length
    else c :: replaceOne old new cs

/-- Accumulator for `splitlines`; the current (reversed) line is carried. -/
def splitlinesAux (acc : List Char) : List Char → List (List Char)
  | [] => if acc.isEmpty then [] else [acc.reverse]
  | '\r' :: '\n' :: t => acc.reverse :: splitlinesAux [] t
  | '\n' :: t => acc.reverse :: splitlinesAux [] t
  | '\r' :: t => acc.reverse :: splitlinesAux [] t
  | c :: t => splitlinesAux (c :: acc) t

/-- Python `s.splitlines()` on the line boundaries `\n`, `\r\n` and `\r`
(the boundaries that occur in this application's documents); no trailing
empty entry is produced for a final newline. -/
def splitlines (s : List Char) : List (List Char) := splitlinesAux [] s

/-- Python `"\n".join(lines)`. -/
def joinNl (lines : List (List Char)) : List Char := List.intercalate ['\n'] lines

/-! Token extraction: the regexes of `app.py` lines 22-27.  Each search
returns the first capture group of the leftmost match. -/

/-- Search for `tag` followed by a nonempty run of `keep`-characters: the
shape of `PROJECT_RE` (`\+([^\s]+)`), `CONTEXT_RE` (`@([^\s]+)`) and `ID_RE`
(`\^([A-Za-z0-9]+)`).  The group is the maximal run after the tag at the
leftmost position where the run is nonempty. -/
def searchTok (tag : Char) (keep : Char → Bool) : List Char → Option (List Char)
  | [] => none
  | c :: cs =>
    if c == tag && !(cs.takeWhile keep).isEmpty then some (cs.takeWhile keep)
    else searchTok tag keep cs

/-- Match of `LINK_RE` (`\[\[([^\]]+)\]\]`) anchored at the start of the
input: two brackets, a nonempty bracket-free group, two closing brackets. -/
def matchLink : List Char → Option (List Char)
  | '[' :: '[' :: rest =>
    let g := rest.takeWhile (fun c => c != ']')
    if !g.isEmpty && List.isPrefixOf ([']', ']']) (rest.drop g.length) then some g
    else none
  | _ => none

/-- Leftmost `LINK_RE` match in the text. -/
def searchLink : List Char → Option (List Char)
  | [] => none
  | c :: cs =>
    match matchLink (c :: cs) with
    | some g => some g
    | none => searchLink cs

/-- Match of `DUE_RE` (`due:(\d{4}-\d{2}-\d{2})`) anchored at the start of
the input; the group is the ten-character date text. -/
def matchDue : List Char → Option (List Char)
  | 'd' :: 'u' :: 'e' :: ':' :: y1 :: y2 :: y3 :: y4 :: '-' :: m1 :: m2 :: '-' :: d1 :: d2 :: _ =>
    if y1.isDigit && y2.isDigit && y3.isDigit && y4.isDigit && m1.isDigit && m2.isDigit &&
        d1.isDigit && d2.isDigit then
      some [y1, y2, y3, y4, '-', m1, m2, '-', d1, d2]
    else none
  | _ => none

/-- Leftmost `DUE_RE` match in the text. -/
def searchDue : List Char → Option (List Char)
  | [] => none
  | c :: cs =>
    match matchDue (c :: cs) with
    | some g => some g
    | none => searchDue cs

/-- The source's `capture_token`: group 1 of the first match, stripped. -/
def capture (search : List Char → Option (List Char)) (text : List Char) :
    Option (List Char) :=
  (search text).map pyStrip

/-- First `PROJECT_RE` capture in `text`, stripped. -/
def captureProject (text : List Char) : Option (List Char) :=
  capture (searchTok '+' (fun c => !pySpace c)) text

/-- First `CONTEXT_RE` capture in `text`, stripped. -/
def captureContext (text : List Char) : Option (List Char) :=
  capture (searchTok '@' (fun c => !pySpace c)) text

/-- First `ID_RE` capture in `text`, stripped. -/
def captureId (text : List Char) : Option (List Char) :=
  capture (searchTok '^' Char.isAlphanum) text

/-- First `LINK_RE` capture in `text`, stripped. -/
def captureRef (text : List Char) : Option (List Char) :=
  capture searchLink text

/-- First `DUE_RE` capture in `text`, stripped. -/
def captureDue (text : List Char) : Option (List Char) :=
  capture searchDue text

/-! Calendar dates, modelling `datetime.date` and
`datetime.strptime(s, "%Y-%m-%d")`. -/

/-- A calendar date as carried by a parsed task record. -/
structure Date where
  y : Nat
  m : Nat
  d : Nat
deriving DecidableEq, Repr

/-- Gregorian leap year. -/
def isLeap (y : Nat) : Bool := y % 4 == 0 && (y % 100 != 0 || y % 400 == 0)

/-- Days in a month of the proleptic Gregorian calendar. -/
def daysInMonth (y m : Nat) : Nat :=
  if m == 2 then (if isLeap y then 29 else 28)
  else if m == 4 || m == 6 || m == 9 || m == 11 then 30
  else 31

/-- Validity check performed by `datetime.date`: year within `MINYEAR` and
`MAXYEAR`, month 1-12, day within the month. -/
def validDate (y m d : Nat) : Bool :=
  decide (1 ≤ y) && decide (y ≤ 9999) && decide (1 ≤ m) && decide (m ≤ 12) &&
    decide (1 ≤ d) && decide (d ≤ daysInMonth y m)

/-- Numeric value of an ASCII digit character. -/
def digitVal (c : Char) : Nat := c.toNat - 48

/-- Model of `datetime.strptime(s, "%Y-%m-%d").date()` with the surrounding
`try`: `none` on any shape or calendar failure. -/
def strpDate (s : List Char) : Option Date :=
  match s with
  | [y1, y2, y3, y4, '-', m1, m2, '-', d1, d2] =>
    if y1.isDigit && y2.isDigit && y3.isDigit && y4.isDigit && m1.isDigit && m2.isDigit &&
        d1.isDigit && d2.isDigit then
      let y := ((digitVal y1 * 10 + digitVal y2) * 10 + digitVal y3) * 10 + digitVal y4
      let m := digitVal m1 * 10 + digitVal m2
      let d := digitVal d1 * 10 + digitVal d2
      if validDate y m d then some ⟨y, m, d⟩ else none
    else none
  | _ => none

/-- Python's ordering on `datetime.date`: lexicographic on year, month, day. -/
def dateLt (a b : Date) : Prop :=
  a.y < b.y ∨ (a.y = b.y ∧ (a.m < b.m ∨ (a.m = b.m ∧ a.d < b.d)))

instance (a b : Date) : Decidable (dateLt a b) := by
  unfold dateLt; infer_instance

/-! The line parser (`parse_line`, `extract_title`, `load_todos`). -/

/-- Marker substrings scanned by `extract_title` (source line 155), in
source order. -/
def titleMarkers : List (List Char) :=
  [(" +".toList), (" @".toList), (" due:".toList), (" [[".toList), (" ✅".toList),
    (" ^".toList), ("+".toList), ("@".toList), ("due:".toList), ("[[".toList),
    ("✅".toList), ("^".toList)]

/-- The source's `extract_title`: truncate at the smallest marker offset,
strip, and fall back to the full stripped text when the result is empty. -/
def extract_title (rest : List Char) : List Char :=
  let cut := titleMarkers.foldl (fun cut m =>
    match pyFind rest m with
    | some idx => if idx < cut then idx else cut
    | none => cut) rest.length
  let cleaned := pyStrip (rest.take cut)
  if cleaned.isEmpty then pyStrip rest else cleaned

/-- A parsed task record, the dict built by `parse_line`. -/
structure Todo where
  line_index : Nat
  marker : Option (List Char)
  title : List Char
  sectionLabel : List Char
  project : Option (List Char)
  context : Option (List Char)
  due : Option Date
  reference : Option (List Char)
  done : Bool
  raw_line : List Char
deriving DecidableEq, Repr

/-- Record assembly shared by the three checkbox branches of `parse_line`. -/
def parseRest (line : List Char) (line_index : Nat) (sec : List Char) (done : Bool)
    (rest : List Char) : Todo :=
  { line_index := line_index
    marker := captureId rest
    title := extract_title rest
    sectionLabel := sec
    project := captureProject rest
    context := captureContext rest
    due := match captureDue rest with
      | some ds => strpDate ds
      | none => none
    reference := captureRef rest
    done := done
    raw_line := line }

/-- The source's `parse_line`: left-trim, test the three checkbox spellings
in source order, and build the record from the text after the 5-character
checkbox. -/
def parse_line (line : List Char) (line_index : Nat) (sec : List Char) : Option Todo :=
  if List.isPrefixOf ("- [x]".toList) (pyLstrip line) then
    some (parseRest line line_index sec true (pyStrip ((pyLstrip line).drop 5)))
  else if List.isPrefixOf ("- [X]".toList) (pyLstrip line) then
    some (parseRest line line_index sec true (pyStrip ((pyLstrip line).drop 5)))
  else if List.isPrefixOf ("- [ ]".toList) (pyLstrip line) then
    some (parseRest line line_index sec false (pyStrip ((pyLstrip line).drop 5)))
  else none

/-- The sentinel section label of `load_todos`. -/
def defaultSection : List Char := "Ohne Abschnitt".toList

/-- Header test of `load_todos`: the stripped line starts with three hashes. -/
def isHeader (line : List Char) : Bool :=
  List.isPrefixOf ("###".toList) (pyStrip line)

/-- Section label of a header line: `trimmed.lstrip('#').strip()`. -/
def headerText (line : List Char) : List Char :=
  pyStrip ((pyStrip line).dropWhile (fun c => c == '#'))

/-- The enumerated-line loop body of `load_todos`, carrying the running
section label. -/
def loadAux (sec : List Char) : List (Nat × List Char) → List Todo
  | [] => []
  | (i, line) :: rest =>
    if isHeader line then loadAux (headerText line) rest
    else
      match parse_line line i sec with
      | some t => t :: loadAux sec rest
      | none => loadAux sec rest

/-- The source's `load_todos` applied to already-read document content. -/
def load_todos (content : List Char) : List Todo :=
  if content.isEmpty then [] else loadAux defaultSection (splitlines content).enum

/-! Line rewriting (`rewrite_line` and `COMPLETION_RE`), toggling, adding,
editing. -/

/-- Tail of `COMPLETION_RE` after the glyph's following whitespace: a
`\d{4}-\d{2}-\d{2}` date (further characters unconstrained). -/
def matchDate10 : List Char → Bool
  | y1 :: y2 :: y3 :: y4 :: h1 :: m1 :: m2 :: h2 :: d1 :: d2 :: _ =>
    y1.isDigit && y2.isDigit && y3.isDigit && y4.isDigit && h1 == '-' &&
      m1.isDigit && m2.isDigit && h2 == '-' && d1.isDigit && d2.isDigit
  | _ => false

/-- Match of `COMPLETION_RE` (`\s✅\s\d{4}-\d{2}-\d{2}`, 13 characters)
anchored at the start of the input. -/
def matchCompletion : List Char → Bool
  | a :: b :: c :: rest => pySpace a && b == '✅' && pySpace c && matchDate10 rest
  | _ => false

/-- Fuel-bounded scan for `COMPLETION_RE.sub`; every step consumes at least
one character, so fuel equal to the input length always suffices. -/
def completionSubF : Nat → List Char → List Char
  | _, [] => []
  | 0, s => s
  | n + 1, c :: cs =>
    if matchCompletion (c :: cs) then completionSubF n ((c :: cs).drop 13)
    else c :: completionSubF n cs

/-- Python `COMPLETION_RE.sub("", s)`: delete every leftmost-first,
non-overlapping match of the 13-character completion pattern. -/
def completionSub (s : List Char) : List Char := completionSubF s.length s

/-- The source's `rewrite_line`: two first-occurrence replacements (the
target's opposite lowercase spelling, then the uppercase checked spelling),
followed by completion-marker removal. -/
def rewrite_line (line : List Char) (done : Bool) : List Char :=
  if done then
    completionSub (replaceOne ("- [X]".toList) ("- [x]".toList)
      (replaceOne ("- [ ]".toList) ("- [x]".toList) line))
  else
    completionSub (replaceOne ("- [X]".toList) ("- [ ]".toList)
      (replaceOne ("- [x]".toList) ("- [ ]".toList) line))

/-- The source's `toggle_todo` on already-read content: `some` of the new
document when a write happens, `none` when the index is out of range and
nothing is written. -/
def toggle_todo (content : List Char) (line_index : Nat) (done : Bool) :
    Option (List Char) :=
  let lines := splitlines content
  match lines[line_index]? with
  | some l => some (joinNl (lines.set line_index (rewrite_line l done)) ++ ['\n'])
  | none => none

/-- The `/toggle` route's current-state check: checked-substring presence. -/
def lineIsDone (line : List Char) : Bool :=
  pyContains ("- [x]".toList) line || pyContains ("- [X]".toList) line

/-- One user-level toggle of a single raw line, as the `/toggle` route
performs it: flip to the inverse of the current substring-derived state. -/
def toggleLine (line : List Char) : List Char :=
  rewrite_line line (!lineIsDone line)

/-- The `/toggle` route on already-read content: the stored document after
the request. -/
def toggleRoute (content : List Char) (line_index : Nat) : List Char :=
  let lines := splitlines content
  match lines[line_index]? with
  | some l =>
    match toggle_todo content line_index (!lineIsDone l) with
    | some c => c
    | none => content
  | none => content

/-- The separator-search loop of `add_todo`: index of the first line whose
stripped text is `---`, or the number of lines when there is none. -/
def sepIndex : List (List Char) → Nat
  | [] => 0
  | l :: ls => if pyStrip l == ("---".toList) then 0 else sepIndex ls + 1

/-- Python `lines.insert(i, x)` for `i` at most the length. -/
def insertAt (lines : List (List Char)) (i : Nat) (x : List Char) :
    List (List Char) :=
  lines.take i ++ x :: lines.drop i

/-- The source's `add_todo` on already-read content; `today` is the
environment-supplied `%Y-%m-%d` string. -/
def add_todo (content title today : List Char) : List Char :=
  let lines := splitlines content
  let newLine := ("- [ ] ".toList) ++ title ++ (" due:".toList) ++ today
  joinNl (insertAt lines (sepIndex lines) newLine) ++ ['\n']

/-- Line reconstruction of the `/edit` POST handler: fixed token order, each
optional field emitted when Python-truthy and nonempty after stripping, and
the identifier marker re-extracted from the original line appended last. -/
def rebuild_line (original : List Char) (done : Bool)
    (title project context due reference : List Char) : List Char :=
  let marker := captureId original
  let n0 := (if done then ("- [x] ".toList) else ("- [ ] ".toList)) ++ pyStrip title
  let n1 := if !project.isEmpty && !(pyStrip project).isEmpty then
    n0 ++ (" +".toList) ++ pyStrip project else n0
  let n2 := if !context.isEmpty && !(pyStrip context).isEmpty then
    n1 ++ (" @".toList) ++ pyStrip context else n1
  let n3 := if !due.isEmpty && !(pyStrip due).isEmpty then
    n2 ++ (" due:".toList) ++ pyStrip due else n2
  let n4 := if !reference.isEmpty && !(pyStrip reference).isEmpty then
    n3 ++ (" [[".toList) ++ pyStrip reference ++ ("]]".toList) else n3
  match marker with
  | some m => n4 ++ (" ^".toList) ++ m
  | none => n4

/-- The `/edit` POST handler on already-read content: `none` (no write,
redirect) when the index is out of range, otherwise `some` of the rewritten
document. -/
def edit_post (content : List Char) (line_index : Nat) (done : Bool)
    (title project context due reference : List Char) : Option (List Char) :=
  let lines := splitlines content
  match lines[line_index]? with
  | some orig =>
    some (joinNl (lines.set line_index
      (rebuild_line orig done title project context due reference)) ++ ['\n'])
  | none => none

/-! Sorting (`sort_key_topic`, `sort_key_date`) and filtering.  Python's
tuple comparison is lexicographic, modelled with `Prod.Lex`; Python string
comparison is code-point lexicographic, modelled by the lexicographic order
on `List Char`. -/

/-- Python `s.lower()` (ASCII case mapping). -/
def lcLower (s : List Char) : List Char := s.map Char.toLower

/-- The presence flag `0 if p else 1` of the sort keys: Python truthiness,
so `none` and the empty string both give 1. -/
def optFlag (o : Option (List Char)) : Nat :=
  match o with
  | some s => if s.isEmpty then 1 else 0
  | none => 1

/-- The text component `p.lower() if p else ""` of the sort keys. -/
def optLower (o : Option (List Char)) : List Char :=
  match o with
  | some s => if s.isEmpty then [] else lcLower s
  | none => []

/-- Key type of `sort_key_topic` under lexicographic tuple comparison. -/
abbrev TopicKey := ℕ ×ₗ List Char ×ₗ List Char ×ₗ List Char ×ₗ ℕ ×ₗ List Char

/-- Key type of `sort_key_date`. -/
abbrev DateKey := ℕ ×ₗ (ℕ ×ₗ ℕ ×ₗ ℕ) ×ₗ TopicKey

/-- The source's `sort_key_topic`. -/
def sort_key_topic (t : Todo) : TopicKey :=
  toLex (optFlag t.project, toLex (optLower t.project, toLex (lcLower t.sectionLabel,
    toLex (lcLower t.title, toLex (optFlag t.context, optLower t.context)))))

/-- Lexicographic encoding of a date, matching Python date comparison. -/
def dateTriple (d : Date) : ℕ ×ₗ ℕ ×ₗ ℕ := toLex (d.y, toLex (d.m, d.d))

/-- The source's `sort_key_date`: bucket flag (`None` first), the date
(`datetime.min.date()`, that is 0001-01-01, in the `None` bucket), then the
full topic key. -/
def sort_key_date (t : Todo) : DateKey :=
  match t.due with
  | none => toLex (0, toLex (dateTriple ⟨1, 1, 1⟩, sort_key_topic t))
  | some d => toLex (1, toLex (dateTriple d, sort_key_topic t))

/-- Stable insertion of one record into an already-sorted run, by the date
key; a list element equal in key to `x` keeps `x` on its left, matching the
stability contract of Python's `list.sort`. -/
def insertK (x : Todo) : List Todo → List Todo
  | [] => [x]
  | h :: t => if sort_key_date x ≤ sort_key_date h then x :: h :: t else h :: insertK x t

/-- Stable sort by `sort_key_date`.  Python's `list.sort(key=...)` is
specified exactly by sortedness in the key plus stability, which determines
the output uniquely; insertion sort realises that specification. -/
def sortDate : List Todo → List Todo
  | [] => []
  | x :: xs => insertK x (sortDate xs)

/-- The due-date test of the index route's filter loop:
`todo['due'] and todo['due'] > today`. -/
def dueAfterToday (due : Option Date) (today : Date) : Bool :=
  match due with
  | some d => decide (dateLt today d)
  | none => false

/-- The filter loop of the index route: drop completed tasks unless
`show_done`, and with `show_due_only` drop tasks strictly due after today. -/
def filterTodos (todos : List Todo) (show_done show_due_only : Bool) (today : Date) :
    List Todo :=
  todos.filter fun t => !(!show_done && t.done) && !(show_due_only && dueAfterToday t.due today)

/-! Lemmas about the scanning primitives. -/

/-- Fuel above the input length is irrelevant for the completion scan. -/
theorem completionSubF_irrel :
    ∀ (n m : Nat) (s : List Char), s.length ≤ n → s.length ≤ m →
      completionSubF n s = completionSubF m s := by
  intro n
  induction n with
  | zero =>
    intro m s hn _
    cases s with
    | nil => cases m <;> rfl
    | cons c cs => simp at hn
  | succ n ih =>
    intro m s hn hm
    cases s with
    | nil => cases m <;> rfl
    | cons c cs =>
      cases m with
      | zero => simp at hm
      | succ m =>
        simp only [completionSubF]
        by_cases h : matchCompletion (c :: cs) = true
        · rw [if_pos h, if_pos h]
          apply ih
          · simp only [List.length_drop, List.length_cons] at *
            omega
          · simp only [List.length_drop, List.length_cons] at *
            omega
        · rw [if_neg (by simp [h]), if_neg (by simp [h])]
          simp only [List.length_cons] at hn hm
          rw [ih m cs (by omega) (by omega)]

/-- Unfolding equation of `completionSub` on a cons cell. -/
theorem completionSub_cons (c : Char) (cs : List Char) :
    completionSub (c :: cs) =
      if matchCompletion (c :: cs) then completionSub ((c :: cs).drop 13)
      else c :: completionSub cs := by
  show completionSubF (c :: cs).length (c :: cs) = _
  simp only [List.length_cons, completionSubF]
  by_cases h : matchCompletion (c :: cs) = true
  · rw [if_pos h, if_pos h]
    exact completionSubF_irrel _ _ _
      (by simp only [List.length_drop, List.length_cons]; omega) le_rfl
  · rw [if_neg (by simp [h]), if_neg (by simp [h])]
    rfl

/-- A completion-pattern match cannot start at a non-whitespace character. -/
theorem matchCompletion_false_head (c : Char) (s : List Char) (h : pySpace c = false) :
    matchCompletion (c :: s) = false := by
  match s with
  | [] => rfl
  | [b] => rfl
  | b :: d :: t => simp [matchCompletion, h]

/-- A completion-pattern match needs the checkmark glyph as second
character. -/
theorem matchCompletion_false_snd (c b : Char) (s : List Char) (h : ¬ b = '✅') :
    matchCompletion (c :: b :: s) = false := by
  match s with
  | [] => rfl
  | d :: t => simp [matchCompletion, h]

/-- Scan step on a cons cell that does not start a match. -/
theorem completionSub_cons_skip (c : Char) (cs : List Char)
    (h : matchCompletion (c :: cs) = false) :
    completionSub (c :: cs) = c :: completionSub cs := by
  rw [completionSub_cons, if_neg (by simp [h])]

/-! Spec-side counterparts for the line rewrite, written from the wording
of the (amended) toggle-rewrite claim rather than from the code: a splice
at the first found occurrence, and repeated deletion of the leftmost
completion-pattern match. -/

/-- Splice-style first-occurrence replacement: the text up to the first
occurrence of `old`, then `new`, then the text after the occurrence. -/
def replaceFirstSpec (old new s : List Char) : List Char :=
  match pyFind s old with
  | some i => s.take i ++ new ++ s.drop (i + old.length)
  | none => s

/-- Index of the leftmost completion-pattern match. -/
def completionFindIdx : List Char → Option Nat
  | [] => none
  | c :: cs =>
    if matchCompletion (c :: cs) then some 0
    else (completionFindIdx cs).map (· + 1)

/-- Fuel-bounded repeated deletion of the leftmost completion match; every
round deletes 13 characters, so fuel equal to the length suffices. -/
def completionSubSpecF : Nat → List Char → List Char
  | 0, s => s
  | n + 1, s =>
    match completionFindIdx s with
    | some i => s.take i ++ completionSubSpecF n (s.drop (i + 13))
    | none => s

/-- Deletion of every completion-pattern occurrence, leftmost first. -/
def completionSubSpec (s : List Char) : List Char := completionSubSpecF s.length s

/-- Fuel above the input length is irrelevant for the spec-side deletion. -/
theorem completionSubSpecF_irrel :
    ∀ (n m : Nat) (s : List Char), s.length ≤ n → s.length ≤ m →
      completionSubSpecF n s = completionSubSpecF m s := by
  intro n
  induction n with
  | zero =>
    intro m s hn _
    have hs : s = [] := List.eq_nil_of_length_eq_zero (Nat.le_zero.mp hn)
    subst hs
    cases m with
    | zero => rfl
    | succ m => simp [completionSubSpecF, completionFindIdx]
  | succ n ih =>
    intro m s hn hm
    cases m with
    | zero =>
      have hs : s = [] := List.eq_nil_of_length_eq_zero (Nat.le_zero.mp hm)
      subst hs
      simp [completionSubSpecF, completionFindIdx]
    | succ m =>
      simp only [completionSubSpecF]
      cases hf : completionFindIdx s with
      | none => rfl
      | some i =>
        show s.take i ++ completionSubSpecF n (s.drop (i + 13)) =
          s.take i ++ completionSubSpecF m (s.drop (i + 13))
        congr 1
        apply ih <;> (simp only [List.length_drop]; omega)

/-- Unfolding of `completionSubSpec` at a found match. -/
theorem completionSubSpec_pos (s : List Char) (i : Nat)
    (h : completionFindIdx s = some i) :
    completionSubSpec s = s.take i ++ completionSubSpec (s.drop (i + 13)) := by
  cases s with
  | nil => simp [completionFindIdx] at h
  | cons c cs =>
    show completionSubSpecF (c :: cs).length (c :: cs) = _
    simp only [List.length_cons, completionSubSpecF, h]
    congr 1
    exact completionSubSpecF_irrel _ _ _
      (by simp only [List.length_drop, List.length_cons]; omega) le_rfl

/-- Unfolding of `completionSubSpec` when there is no match. -/
theorem completionSubSpec_none (s : List Char) (h : completionFindIdx s = none) :
    completionSubSpec s = s := by
  cases s with
  | nil => rfl
  | cons c cs =>
    show completionSubSpecF (c :: cs).length (c :: cs) = _
    simp only [List.length_cons, completionSubSpecF, h]

/-- The recursive scan `replaceOne` computes the splice-style
first-occurrence replacement. -/
theorem replaceOne_eq_replaceFirstSpec (old new : List Char) :
    ∀ s : List Char, replaceOne old new s = replaceFirstSpec old new s := by
  intro s
  induction s with
  | nil =>
    cases hp : List.isPrefixOf old ([] : List Char) with
    | true =>
      have ho : old = [] := by
        cases old with
        | nil => rfl
        | cons o os => simp [List.isPrefixOf] at hp
      subst ho
      simp [replaceOne, replaceFirstSpec, pyFind]
    | false =>
      simp [replaceOne, replaceFirstSpec, pyFind, hp]
  | cons c cs ih =>
    cases hp : List.isPrefixOf old (c :: cs) with
    | true => simp [replaceOne, replaceFirstSpec, pyFind, hp]
    | false =>
      simp only [replaceOne, hp, Bool.false_eq_true, if_false]
      rw [ih]
      cases hf : pyFind cs old with
      | none => simp [replaceFirstSpec, pyFind, hp, hf]
      | some i =>
        simp only [replaceFirstSpec, pyFind, hp, hf, Bool.false_eq_true, if_false,
          Option.map_some']
        rw [List.take_succ_cons]
        have h13 : i + 1 + old.length = (i + old.length) + 1 := by omega
        rw [h13, List.drop_succ_cons]
        simp

/-- The source scan `completionSub` deletes exactly the leftmost matches,
one after the other: it equals the spec-side `completionSubSpec`. -/
theorem completionSub_eq_spec (s : List Char) : completionSub s = completionSubSpec s := by
  have main : ∀ (n : Nat) (s : List Char), s.length ≤ n →
      completionSub s = completionSubSpec s := by
    intro n
    induction n with
    | zero =>
      intro s hn
      have hs : s = [] := List.eq_nil_of_length_eq_zero (Nat.le_zero.mp hn)
      subst hs
      rfl
    | succ n ih =>
      intro s hn
      cases s with
      | nil => rfl
      | cons c cs =>
        by_cases h : matchCompletion (c :: cs) = true
        · rw [completionSub_cons, if_pos h]
          rw [completionSubSpec_pos (c :: cs) 0 (by simp [completionFindIdx, h])]
          simp only [List.take_zero, List.nil_append, Nat.zero_add]
          exact ih _ (by simp only [List.length_drop, List.length_cons] at hn ⊢; omega)
        · rw [completionSub_cons_skip _ _ (by simpa using h)]
          rw [ih cs (by simp only [List.length_cons] at hn; omega)]
          cases hf : completionFindIdx cs with
          | none =>
            rw [completionSubSpec_none cs hf,
              completionSubSpec_none (c :: cs) (by simp [completionFindIdx, h, hf])]
          | some j =>
            rw [completionSubSpec_pos cs j hf,
              completionSubSpec_pos (c :: cs) (j + 1)
                (by simp [completionFindIdx, h, hf])]
            rw [List.take_succ_cons]
            have h13 : j + 1 + 13 = (j + 13) + 1 := by omega
            rw [h13, List.drop_succ_cons]
            simp
  exact main s.length s le_rfl

/-- C2 as stated is false: toggling `- [ ] a - [X] b` to done must, per the
claim, replace only the first occurrence of the opposite-state spelling
`- [ ]` with `- [x]` and modify nothing else (the line carries no
completion marker), which would give `- [x] a - [X] b`; the code also
rewrites the uppercase checked spelling and produces `- [x] a - [x] b`. -/
theorem C2_counterexample :
    rewrite_line ("- [ ] a - [X] b".toList) true = ("- [x] a - [x] b".toList) ∧
      rewrite_line ("- [ ] a - [X] b".toList) true ≠ ("- [x] a - [X] b".toList) :=
  ⟨by decide, by decide⟩

/-- C2 amended: for every raw line and target state, the toggle rewrite
performs two first-occurrence-only replacements in order — first the
spelling of the state opposite to the target (`- [ ]` when checking,
`- [x]` when unchecking), then additionally the uppercase checked spelling
`- [X]` — each spliced with the canonical spelling of the target state, and
afterwards deletes every occurrence anywhere in the line (not only a
trailing one) of the completion pattern whitespace, checkmark glyph,
whitespace, `YYYY-MM-DD` date. -/
theorem C2_amended_rewrite (line : List Char) (done : Bool) :
    rewrite_line line done =
      completionSubSpec (replaceFirstSpec ("- [X]".toList)
        (if done then ("- [x]".toList) else ("- [ ]".toList))
        (replaceFirstSpec (if done then ("- [ ]".toList) else ("- [x]".toList))
          (if done then ("- [x]".toList) else ("- [ ]".toList)) line)) := by
  cases done <;>
    simp [rewrite_line, replaceOne_eq_replaceFirstSpec, completionSub_eq_spec]

/-- C1: the scenario line parses to a record with `done = false`, title
`Write report`, project `work`, context `office`, due 2024-01-01 and marker
`abc123`, and toggling that line yields exactly the checked spelling of the
same line. -/
theorem C1_parse_and_toggle :
    parse_line ("- [ ] Write report +work @office due:2024-01-01 ^abc123".toList) 0
        defaultSection =
      some { line_index := 0
             marker := some ("abc123".toList)
             title := ("Write report".toList)
             sectionLabel := defaultSection
             project := some ("work".toList)
             context := some ("office".toList)
             due := some ⟨2024, 1, 1⟩
             reference := none
             done := false
             raw_line := ("- [ ] Write report +work @office due:2024-01-01 ^abc123".toList) } ∧
    toggleLine ("- [ ] Write report +work @office due:2024-01-01 ^abc123".toList) =
      ("- [x] Write report +work @office due:2024-01-01 ^abc123".toList) :=
  ⟨by decide, by decide⟩

/-- C10: token extraction matches mid-word.  In this task line the first
`@` sits inside `bob@work.example` with no preceding space, the first `+`
sits inside `a+b`, and the first `^` sits inside the `[[note^k7]]`
reference, yet parsing captures context `work.example`, project `b` and
marker `k7` from those occurrences. -/
theorem C10_midword_tokens :
    parse_line ("- [ ] send rsvp bob@work.example and fee a+b [[note^k7]]".toList) 0
        defaultSection =
      some { line_index := 0
             marker := some ("k7".toList)
             title := ("send rsvp bob".toList)
             sectionLabel := defaultSection
             project := some ("b".toList)
             context := some ("work.example".toList)
             due := none
             reference := some ("note^k7".toList)
             done := false
             raw_line := ("- [ ] send rsvp bob@work.example and fee a+b [[note^k7]]".toList) } := by
  decide

/-- C5: a record survives the display filter exactly when it is a member of
the input, is not completed unless the show-completed flag is set, and,
under the due-only flag, has no due date strictly after today; in particular
a record without a due date always passes the due-only test. -/
theorem C5_filter_semantics :
    ∀ (todos : List Todo) (show_done show_due_only : Bool) (today : Date) (t : Todo),
      t ∈ filterTodos todos show_done show_due_only today ↔
        (t ∈ todos ∧ (t.done = true → show_done = true) ∧
          (show_due_only = true → ∀ d, t.due = some d → ¬ dateLt today d)) := by
  intro todos sd sdo today t
  simp only [filterTodos, List.mem_filter]
  refine and_congr_right fun _ => ?_
  cases hdu : t.due with
  | none =>
    cases sd <;> cases sdo <;> cases hdn : t.done <;>
      simp [dueAfterToday, hdu, hdn]
  | some d =>
    cases sd <;> cases sdo <;> cases hdn : t.done <;>
      by_cases hlt : dateLt today d <;>
        simp [dueAfterToday, hdu, hdn, hlt]

/-- C8: a toggle or edit whose line index is at or beyond the number of
document lines performs no write and leaves the stored document unchanged. -/
theorem C8_out_of_range_noop :
    ∀ (content : List Char) (i : Nat) (done : Bool) (t p c d r : List Char),
      (splitlines content).length ≤ i →
        toggle_todo content i done = none ∧ toggleRoute content i = content ∧
          edit_post content i done t p c d r = none := by
  intro content i done t p c d r h
  have hg : (splitlines content)[i]? = none := List.getElem?_eq_none h
  refine ⟨?_, ?_, ?_⟩ <;> simp [toggle_todo, toggleRoute, edit_post, hg]

/-- Witness for C8 at a concrete two-line document and index 5. -/
theorem C8_witness :
    toggle_todo ("- [ ] a\n- [ ] b\n".toList) 5 true = none ∧
      toggleRoute ("- [ ] a\n- [ ] b\n".toList) 5 = ("- [ ] a\n- [ ] b\n".toList) ∧
      edit_post ("- [ ] a\n- [ ] b\n".toList) 5 true ("t".toList) [] [] [] [] = none :=
  C8_out_of_range_noop ("- [ ] a\n- [ ] b\n".toList) 5 true ("t".toList) [] [] [] []
    (by decide)

/-! C6: `add_todo` inserts before the first separator line. -/

/-- The separator index never exceeds the number of lines. -/
theorem sepIndex_le_length : ∀ ls : List (List Char), sepIndex ls ≤ ls.length := by
  intro ls
  induction ls with
  | nil => exact Nat.le_refl 0
  | cons l t ih =>
    simp only [sepIndex, List.length_cons]
    split
    · omega
    · omega

/-- No line before the separator index is a separator. -/
theorem sepIndex_take_no_sep :
    ∀ ls : List (List Char),
      (ls.take (sepIndex ls)).all (fun l => !(pyStrip l == ("---".toList))) = true := by
  intro ls
  induction ls with
  | nil => rfl
  | cons l t ih =>
    simp only [sepIndex]
    split
    · rfl
    · rename_i hne
      rw [List.take_succ_cons, List.all_cons, ih]
      simpa using hne

/-- The line at the separator index, when it exists, is a separator. -/
theorem sepIndex_drop_head_sep :
    ∀ ls : List (List Char),
      ((ls.drop (sepIndex ls)).take 1).all (fun l => pyStrip l == ("---".toList)) = true := by
  intro ls
  induction ls with
  | nil => rfl
  | cons l t ih =>
    simp only [sepIndex]
    split
    · rename_i heq
      simpa using heq
    · rw [List.drop_succ_cons]
      exact ih

/-- C6: `add_todo` rebuilds the document as the lines before the separator
index, then the new line `- [ ] title due:today`, then the lines from the
separator index on; the separator index is the first line whose stripped
text equals `---` (every earlier line differs, and the line there, when it
exists, is a separator), and equals the document length when no separator
exists, so the new task is appended at the end in that case.  All other
lines keep their content and relative order. -/
theorem C6_add_before_separator (content title today : List Char) :
    sepIndex (splitlines content) ≤ (splitlines content).length ∧
    ((splitlines content).take (sepIndex (splitlines content))).all
      (fun l => !(pyStrip l == ("---".toList))) = true ∧
    (((splitlines content).drop (sepIndex (splitlines content))).take 1).all
      (fun l => pyStrip l == ("---".toList)) = true ∧
    add_todo content title today =
      joinNl ((splitlines content).take (sepIndex (splitlines content)) ++
        (("- [ ] ".toList) ++ title ++ (" due:".toList) ++ today) ::
        (splitlines content).drop (sepIndex (splitlines content))) ++ ['\n'] :=
  ⟨sepIndex_le_length _, sepIndex_take_no_sep _, sepIndex_drop_head_sep _, rfl⟩

/-! C7: the edit rebuild. -/

/-- Spec-side line template for the edit rebuild, following the claim's
wording: checkbox, trimmed title, the four optional tokens in fixed order,
each present exactly when its trimmed value is nonempty, then the marker
re-extracted from the original line when present. -/
def rebuildSpec (marker : Option (List Char)) (done : Bool)
    (title project context due reference : List Char) : List Char :=
  (if done then ("- [x] ".toList) else ("- [ ] ".toList)) ++ pyStrip title
    ++ (if (pyStrip project).isEmpty then [] else (" +".toList) ++ pyStrip project)
    ++ (if (pyStrip context).isEmpty then [] else (" @".toList) ++ pyStrip context)
    ++ (if (pyStrip due).isEmpty then [] else (" due:".toList) ++ pyStrip due)
    ++ (if (pyStrip reference).isEmpty then [] else
      (" [[".toList) ++ pyStrip reference ++ ("]]".toList))
    ++ (match marker with
      | some m => (" ^".toList) ++ m
      | none => [])

/-- Python truthiness plus strip-truthiness collapses to strip-truthiness:
a string with nonempty strip is itself nonempty. -/
theorem truthy_strip (s : List Char) :
    (!s.isEmpty && !(pyStrip s).isEmpty) = !(pyStrip s).isEmpty := by
  cases s with
  | nil => rfl
  | cons c cs => rfl

/-- C7: the rebuilt line is exactly the fixed-order template around the
marker re-extracted from the original line; whenever the original line
carries a marker the rebuilt line ends with that marker token, whatever the
submitted fields are; and the concrete scenario (title `Call plumber`,
context `home`, empty other fields, original marker `^xyz`) produces
`- [ ] Call plumber @home ^xyz`. -/
theorem C7_edit_rebuild :
    (∀ (original : List Char) (done : Bool) (t p c d r : List Char),
      rebuild_line original done t p c d r =
        rebuildSpec (captureId original) done t p c d r) ∧
    (∀ (original : List Char) (done : Bool) (t p c d r m : List Char),
      captureId original = some m →
        ((" ^".toList) ++ m) <:+ rebuild_line original done t p c d r) ∧
    rebuild_line ("- [ ] Call the plumber +p ^xyz".toList) false
      ("Call plumber".toList) [] ("home".toList) [] [] =
      ("- [ ] Call plumber @home ^xyz".toList) := by
  have hspec : ∀ (original : List Char) (done : Bool) (t p c d r : List Char),
      rebuild_line original done t p c d r =
        rebuildSpec (captureId original) done t p c d r := by
    intro original done t p c d r
    simp only [rebuild_line, rebuildSpec, truthy_strip]
    cases captureId original <;>
      by_cases h1 : (pyStrip p).isEmpty <;>
      by_cases h2 : (pyStrip c).isEmpty <;>
      by_cases h3 : (pyStrip d).isEmpty <;>
      by_cases h4 : (pyStrip r).isEmpty <;>
      simp [h1, h2, h3, h4, List.append_assoc]
  refine ⟨hspec, ?_, by decide⟩
  intro original done t p c d r m hm
  rw [hspec]
  simp only [rebuildSpec, hm]
  exact ⟨_, rfl⟩

/-- Witness for C7: the marker-preservation part applied at the scenario
line, whose marker is `xyz`. -/
theorem C7_witness :
    ((" ^".toList) ++ ("xyz".toList)) <:+
      rebuild_line ("- [ ] Call the plumber +p ^xyz".toList) false
        ("Call plumber".toList) [] ("home".toList) [] [] :=
  C7_edit_rebuild.2.1 ("- [ ] Call the plumber +p ^xyz".toList) false
    ("Call plumber".toList) [] ("home".toList) [] [] ("xyz".toList) (by decide)

/-! C9: document loading.  The spec-side section label of a line is the
nearest preceding header, computed independently of the loader's running
accumulator. -/

/-- Nearest-preceding-header label for line `i`: the last header among the
lines before `i`, stripped of its hash run, or the sentinel label. -/
def sectionAt (lines : List (List Char)) (i : Nat) : List Char :=
  match ((lines.take i).filter isHeader).getLast? with
  | some h => headerText h
  | none => defaultSection

/-- Left fold of the running-section update over a list of lines. -/
def runSection (sec : List Char) (pref : List (List Char)) : List Char :=
  pref.foldl (fun s l => if isHeader l then headerText l else s) sec

/-- One step of the running section at the right end. -/
theorem runSection_append_one (sec : List Char) (xs : List (List Char)) (x : List Char) :
    runSection sec (xs ++ [x]) =
      if isHeader x then headerText x else runSection sec xs := by
  simp [runSection, List.foldl_append]

/-- The running section equals the label of the last header seen so far. -/
theorem runSection_eq_getLast (sec : List Char) :
    ∀ pref : List (List Char),
      runSection sec pref =
        (match (pref.filter isHeader).getLast? with
          | some h => headerText h
          | none => sec) := by
  intro pref
  induction pref using List.reverseRecOn with
  | nil => rfl
  | append_singleton xs x ih =>
    rw [runSection_append_one]
    by_cases hx : isHeader x = true
    · rw [if_pos hx, List.filter_append]
      simp [hx, List.getLast?_concat]
    · rw [if_neg (by simp [hx]), List.filter_append, ih]
      simp [hx]

/-- The loader over an enumerated tail equals a per-line computation in
which each line is parsed against the fold of the section updates over the
lines before it. -/
theorem loadAux_enumFrom (lines : List (List Char)) :
    ∀ (k : Nat) (sec : List Char),
      loadAux sec (List.enumFrom k lines) =
        (List.enumFrom k lines).filterMap (fun p =>
          if isHeader p.2 then none
          else parse_line p.2 p.1 (runSection sec (lines.take (p.1 - k)))) := by
  induction lines with
  | nil => intro k sec; rfl
  | cons l rest ih =>
    intro k sec
    have hcongr :
        (List.enumFrom (k + 1) rest).filterMap (fun p =>
          if isHeader p.2 then none
          else parse_line p.2 p.1
            (runSection (if isHeader l then headerText l else sec)
              (rest.take (p.1 - (k + 1))))) =
        (List.enumFrom (k + 1) rest).filterMap (fun p =>
          if isHeader p.2 then none
          else parse_line p.2 p.1 (runSection sec ((l :: rest).take (p.1 - k)))) := by
      apply List.filterMap_congr
      intro x hx
      obtain ⟨i, v⟩ := x
      have hk : k + 1 ≤ i := (List.mem_enumFrom hx).1
      have hik : i - k = (i - (k + 1)) + 1 := by omega
      have htake : (l :: rest).take (i - k) = l :: rest.take (i - (k + 1)) := by
        rw [hik, List.take_succ_cons]
      rw [htake]
      rfl
    have hstep : List.enumFrom k (l :: rest) = (k, l) :: List.enumFrom (k + 1) rest := rfl
    rw [hstep, List.filterMap_cons]
    by_cases hl : isHeader l = true
    · simp only [loadAux, hl, if_true]
      rw [ih (k + 1) (headerText l)]
      have h2 := hcongr
      rw [if_pos hl] at h2
      exact h2
    · have hl' : isHeader l = false := by simpa using hl
      have htail := hcongr
      rw [if_neg hl] at htail
      simp only [loadAux, hl', Bool.false_eq_true, if_false, Nat.sub_self, List.take_zero]
      rw [ih (k + 1) sec, htail]
      have hrs : runSection sec ([] : List (List Char)) = sec := rfl
      rw [hrs]
      cases hp : parse_line l k sec <;> simp [hp]

/-- The loader, expressed per line against the nearest preceding header. -/
theorem load_todos_eq (content : List Char) :
    load_todos content =
      (splitlines content).enum.filterMap (fun p =>
        if isHeader p.2 then none
        else parse_line p.2 p.1 (sectionAt (splitlines content) p.1)) := by
  by_cases hc : content.isEmpty = true
  · have hnil : content = [] := by
      cases content with
      | nil => rfl
      | cons c cs => simp at hc
    subst hnil
    rfl
  · unfold load_todos
    rw [if_neg (by simp [hc])]
    have henum : (splitlines content).enum = List.enumFrom 0 (splitlines content) := rfl
    rw [henum, loadAux_enumFrom]
    apply List.filterMap_congr
    intro p _
    have hsec : runSection defaultSection ((splitlines content).take (p.1 - 0)) =
        sectionAt (splitlines content) p.1 := by
      rw [runSection_eq_getLast, Nat.sub_zero]
      rfl
    rw [hsec]

/-- A header line is never parsed as a task. -/
theorem parse_line_header_none (line : List Char) (i : Nat) (sec : List Char)
    (h : isHeader line = true) : parse_line line i sec = none := by
  have hpre : ("###".toList) <+: pyStrip line := List.isPrefixOf_iff_prefix.mp h
  have hstrip : pyStrip line <+: pyLstrip line := by
    unfold pyStrip pyRstrip
    have hsfx : (pyLstrip line).reverse.dropWhile pySpace <:+ (pyLstrip line).reverse :=
      List.dropWhile_suffix pySpace
    have := List.reverse_prefix.mpr hsfx
    simpa using this
  have hall : ("###".toList) <+: pyLstrip line := hpre.trans hstrip
  obtain ⟨t, ht⟩ := hall
  unfold parse_line
  rw [← ht]
  simp [List.isPrefixOf]

/-- C9: loading yields, per document line in order, exactly the record
parsed from that line with the nearest-preceding-header section (or the
sentinel); a line parses to a record exactly when its left-trimmed text
begins with one of the three checkbox spellings; a header line never yields
a record; and the three-line scenario assigns section `Work` to `Task A`
with the notes line yielding nothing. -/
theorem C9_load_records (content : List Char) :
    (load_todos content =
      (splitlines content).enum.filterMap (fun p =>
        if isHeader p.2 then none
        else parse_line p.2 p.1 (sectionAt (splitlines content) p.1))) ∧
    (∀ (line : List Char) (i : Nat) (sec : List Char),
      (parse_line line i sec).isSome =
        (List.isPrefixOf ("- [x]".toList) (pyLstrip line) ||
          List.isPrefixOf ("- [X]".toList) (pyLstrip line) ||
          List.isPrefixOf ("- [ ]".toList) (pyLstrip line))) ∧
    (∀ (line : List Char) (i : Nat) (sec : List Char),
      isHeader line = true → parse_line line i sec = none) ∧
    load_todos ("### Work\nnotes here\n- [ ] Task A".toList) =
      [{ line_index := 2
         marker := none
         title := ("Task A".toList)
         sectionLabel := ("Work".toList)
         project := none
         context := none
         due := none
         reference := none
         done := false
         raw_line := ("- [ ] Task A".toList) }] := by
  refine ⟨load_todos_eq content, ?_, parse_line_header_none, by decide⟩
  intro line i sec
  by_cases h1 : (['-', ' ', '[', 'x', ']'] : List Char) <+: (pyLstrip line) <;>
    by_cases h2 : (['-', ' ', '[', 'X', ']'] : List Char) <+: (pyLstrip line) <;>
    by_cases h3 : (['-', ' ', '[', ' ', ']'] : List Char) <+: (pyLstrip line) <;>
    simp [parse_line, List.isPrefixOf_iff_prefix, Bool.eq_false_iff, h1, h2, h3]

/-- Witness for C9: the header-line part applied at a concrete header. -/
theorem C9_witness :
    parse_line ("### Work".toList) 0 defaultSection = none :=
  (C9_load_records []).2.2.1 ("### Work".toList) 0 defaultSection (by decide)

/-! C3: double toggle.  Scanning lemmas about occurrences inside a line of
the shape whitespace, checkbox prefix, remainder. -/

/-- Prefix test fails when the heads differ. -/
theorem isPrefixOf_cons_false (o c : Char) (os s : List Char) (h : ¬ c = o) :
    List.isPrefixOf (o :: os) (c :: s) = false := by
  simp only [List.isPrefixOf, Bool.and_eq_false_iff]
  left
  simp [beq_eq_false_iff_ne]
  exact fun e => h e.symm

/-- Unfolding of the containment scan on a cons cell. -/
theorem pyContains_cons (sub : List Char) (c : Char) (s : List Char) :
    pyContains sub (c :: s) = (List.isPrefixOf sub (c :: s) || pyContains sub s) := rfl

/-- The replacement scan walks over a cons cell bearing no occurrence. -/
theorem replaceOne_cons_skip (old new : List Char) (c : Char) (s : List Char)
    (h : List.isPrefixOf old (c :: s) = false) :
    replaceOne old new (c :: s) = c :: replaceOne old new s := by
  simp [replaceOne, h]

/-- Without any occurrence the replacement is the identity. -/
theorem replaceOne_of_not_contains (old new : List Char) :
    ∀ s : List Char, pyContains old s = false → replaceOne old new s = s := by
  intro s
  induction s with
  | nil =>
    intro h
    simp only [pyContains] at h
    simp [replaceOne, h]
  | cons c cs ih =>
    intro h
    rw [pyContains_cons, Bool.or_eq_false_iff] at h
    rw [replaceOne_cons_skip _ _ _ _ h.1, ih h.2]

/-- Replacement at an occurrence sitting at the very start. -/
theorem replaceOne_at_start (old new rest : List Char) (h : old ≠ []) :
    replaceOne old new (old ++ rest) = new ++ rest := by
  have hp : List.isPrefixOf old (old ++ rest) = true :=
    List.isPrefixOf_iff_prefix.mpr ⟨rest, rfl⟩
  cases old with
  | nil => exact absurd rfl h
  | cons o os =>
    rw [List.cons_append, replaceOne, ← List.cons_append, if_pos hp, List.drop_left]

/-- A replacement whose pattern starts with a non-blank character walks
over leading whitespace. -/
theorem replaceOne_ws_append (old new : List Char) (o : Char)
    (ho : old.head? = some o) (hos : pySpace o = false) :
    ∀ ws t : List Char, ws.all pySpace = true →
      replaceOne old new (ws ++ t) = ws ++ replaceOne old new t := by
  cases old with
  | nil => simp at ho
  | cons o' os =>
    have heq : o' = o := by simpa using ho
    subst heq
    intro ws
    induction ws with
    | nil => intro t _; rfl
    | cons w ws' ih =>
      intro t hws
      rw [List.all_cons, Bool.and_eq_true] at hws
      have hw : ¬ w = o' := by
        intro e
        have hcontra := hws.1
        rw [e, hos] at hcontra
        simp at hcontra
      rw [List.cons_append,
        replaceOne_cons_skip _ _ _ _ (isPrefixOf_cons_false _ _ _ _ hw), ih t hws.2]
      rfl

/-- Containment of a pattern starting with a non-blank character ignores
leading whitespace. -/
theorem pyContains_ws_append (old : List Char) (o : Char)
    (ho : old.head? = some o) (hos : pySpace o = false) :
    ∀ ws t : List Char, ws.all pySpace = true →
      pyContains old (ws ++ t) = pyContains old t := by
  cases old with
  | nil => simp at ho
  | cons o' os =>
    have heq : o' = o := by simpa using ho
    subst heq
    intro ws
    induction ws with
    | nil => intro t _; rfl
    | cons w ws' ih =>
      intro t hws
      rw [List.all_cons, Bool.and_eq_true] at hws
      have hw : ¬ w = o' := by
        intro e
        have hcontra := hws.1
        rw [e, hos] at hcontra
        simp at hcontra
      rw [List.cons_append, pyContains_cons,
        isPrefixOf_cons_false _ _ _ _ hw, Bool.false_or, ih t hws.2]

/-- The completion scan walks over leading whitespace when the text after
it starts with a dash. -/
theorem completionSub_ws_append :
    ∀ ws t : List Char, ws.all pySpace = true → t.head? = some '-' →
      completionSub (ws ++ t) = ws ++ completionSub t := by
  intro ws
  induction ws with
  | nil => intro t _ _; rfl
  | cons w ws' ih =>
    intro t hws ht
    rw [List.all_cons, Bool.and_eq_true] at hws
    have hskip : matchCompletion (w :: (ws' ++ t)) = false := by
      cases ws' with
      | nil =>
        cases t with
        | nil => simp at ht
        | cons a t' =>
          have ha : a = '-' := by simpa using ht
          subst ha
          exact matchCompletion_false_snd _ _ _ (by decide)
      | cons v vs =>
        have hv : ¬ v = '✅' := by
          intro e
          have := hws.2
          rw [List.all_cons, Bool.and_eq_true] at this
          rw [e] at this
          exact absurd this.1 (by decide)
        exact matchCompletion_false_snd _ _ _ hv
    rw [List.cons_append, completionSub_cons_skip _ _ hskip, ih t hws.2 ht]
    rfl

/-- The completion scan walks over the checked checkbox prefix. -/
theorem completionSub_block_x (rest : List Char) :
    completionSub (("- [x]".toList) ++ rest) = ("- [x]".toList) ++ completionSub rest := by
  show completionSub ('-' :: ' ' :: '[' :: 'x' :: ']' :: rest) = _
  rw [completionSub_cons_skip _ _ (matchCompletion_false_head _ _ (by decide)),
    completionSub_cons_skip _ _ (matchCompletion_false_snd _ _ _ (by decide)),
    completionSub_cons_skip _ _ (matchCompletion_false_head _ _ (by decide)),
    completionSub_cons_skip _ _ (matchCompletion_false_head _ _ (by decide)),
    completionSub_cons_skip _ _ (matchCompletion_false_head _ _ (by decide))]
  rfl

/-- The completion scan walks over the unchecked checkbox prefix. -/
theorem completionSub_block_o (rest : List Char) :
    completionSub (("- [ ]".toList) ++ rest) = ("- [ ]".toList) ++ completionSub rest := by
  show completionSub ('-' :: ' ' :: '[' :: ' ' :: ']' :: rest) = _
  rw [completionSub_cons_skip _ _ (matchCompletion_false_head _ _ (by decide)),
    completionSub_cons_skip _ _ (matchCompletion_false_snd _ _ _ (by decide)),
    completionSub_cons_skip _ _ (matchCompletion_false_head _ _ (by decide)),
    completionSub_cons_skip _ _ (matchCompletion_false_snd _ _ _ (by decide)),
    completionSub_cons_skip _ _ (matchCompletion_false_head _ _ (by decide))]
  rfl

/-- Containment of a dash-headed pattern across a five-character block none
of whose last four characters is a dash, when the block itself does not
match at its start. -/
theorem pyContains_block (o : Char) (os : List Char) (q0 q1 q2 q3 q4 : Char)
    (rest : List Char)
    (h0 : List.isPrefixOf (o :: os) (q0 :: q1 :: q2 :: q3 :: q4 :: rest) = false)
    (h1 : ¬ q1 = o) (h2 : ¬ q2 = o) (h3 : ¬ q3 = o) (h4 : ¬ q4 = o) :
    pyContains (o :: os) (q0 :: q1 :: q2 :: q3 :: q4 :: rest) =
      pyContains (o :: os) rest := by
  rw [pyContains_cons, h0, Bool.false_or,
    pyContains_cons, isPrefixOf_cons_false _ _ _ _ h1, Bool.false_or,
    pyContains_cons, isPrefixOf_cons_false _ _ _ _ h2, Bool.false_or,
    pyContains_cons, isPrefixOf_cons_false _ _ _ _ h3, Bool.false_or,
    pyContains_cons, isPrefixOf_cons_false _ _ _ _ h4, Bool.false_or]

/-- Containment holds at a pattern occurrence placed at the start. -/
theorem pyContains_at_start (o : Char) (os rest : List Char) :
    pyContains (o :: os) ((o :: os) ++ rest) = true := by
  rw [List.cons_append, pyContains_cons, ← List.cons_append]
  have hp : List.isPrefixOf (o :: os) ((o :: os) ++ rest) = true :=
    List.isPrefixOf_iff_prefix.mpr ⟨rest, rfl⟩
  rw [hp, Bool.true_or]

/-- The checked spelling does not occur across an unchecked prefix. -/
theorem pyContains_x_over_o (rest : List Char) :
    pyContains ("- [x]".toList) (("- [ ]".toList) ++ rest) =
      pyContains ("- [x]".toList) rest := by
  have ox : ("- [x]".toList : List Char) = '-' :: (" [x]".toList) := rfl
  have ex : ("- [ ]".toList) ++ rest = '-' :: ' ' :: '[' :: ' ' :: ']' :: rest := rfl
  rw [ox, ex, pyContains_block '-' (" [x]".toList) '-' ' ' '[' ' ' ']' rest
    (by simp [List.isPrefixOf]) (by decide) (by decide) (by decide) (by decide)]

/-- The uppercase checked spelling does not occur across an unchecked
prefix. -/
theorem pyContains_X_over_o (rest : List Char) :
    pyContains ("- [X]".toList) (("- [ ]".toList) ++ rest) =
      pyContains ("- [X]".toList) rest := by
  have ox : ("- [X]".toList : List Char) = '-' :: (" [X]".toList) := rfl
  have ex : ("- [ ]".toList) ++ rest = '-' :: ' ' :: '[' :: ' ' :: ']' :: rest := rfl
  rw [ox, ex, pyContains_block '-' (" [X]".toList) '-' ' ' '[' ' ' ']' rest
    (by simp [List.isPrefixOf]) (by decide) (by decide) (by decide) (by decide)]

/-- The uppercase checked spelling does not occur across a lowercase
checked prefix. -/
theorem pyContains_X_over_x (rest : List Char) :
    pyContains ("- [X]".toList) (("- [x]".toList) ++ rest) =
      pyContains ("- [X]".toList) rest := by
  have ox : ("- [X]".toList : List Char) = '-' :: (" [X]".toList) := rfl
  have ex : ("- [x]".toList) ++ rest = '-' :: ' ' :: '[' :: 'x' :: ']' :: rest := rfl
  rw [ox, ex, pyContains_block '-' (" [X]".toList) '-' ' ' '[' 'x' ']' rest
    (by simp [List.isPrefixOf]) (by decide) (by decide) (by decide) (by decide)]

/-- The unchecked spelling does not occur across a lowercase checked
prefix. -/
theorem pyContains_o_over_x (rest : List Char) :
    pyContains ("- [ ]".toList) (("- [x]".toList) ++ rest) =
      pyContains ("- [ ]".toList) rest := by
  have ox : ("- [ ]".toList : List Char) = '-' :: (" [ ]".toList) := rfl
  have ex : ("- [x]".toList) ++ rest = '-' :: ' ' :: '[' :: 'x' :: ']' :: rest := rfl
  rw [ox, ex, pyContains_block '-' (" [ ]".toList) '-' ' ' '[' 'x' ']' rest
    (by simp [List.isPrefixOf]) (by decide) (by decide) (by decide) (by decide)]

/-- The checked spelling occurs at a checked prefix. -/
theorem pyContains_x_at_x (rest : List Char) :
    pyContains ("- [x]".toList) (("- [x]".toList) ++ rest) = true := by
  have ox : ("- [x]".toList : List Char) = '-' :: (" [x]".toList) := rfl
  rw [ox, pyContains_at_start]

/-- One user toggle of a line made of whitespace, the unchecked prefix and
a checkbox-free remainder: the box is checked and completion markers are
removed from the remainder. -/
theorem toggleLine_check_step (ws rest : List Char) (hws : ws.all pySpace = true)
    (hb : pyContains ("- [x]".toList) rest = false)
    (hc : pyContains ("- [X]".toList) rest = false) :
    toggleLine (ws ++ ("- [ ]".toList) ++ rest) =
      ws ++ ("- [x]".toList) ++ completionSub rest := by
  rw [List.append_assoc ws (("- [ ]".toList)) rest,
    List.append_assoc ws (("- [x]".toList)) (completionSub rest)]
  have hdone : lineIsDone (ws ++ (("- [ ]".toList) ++ rest)) = false := by
    unfold lineIsDone
    rw [pyContains_ws_append ("- [x]".toList) '-' (by decide) (by decide) ws _ hws,
      pyContains_ws_append ("- [X]".toList) '-' (by decide) (by decide) ws _ hws,
      pyContains_x_over_o, pyContains_X_over_o, hb, hc]
    rfl
  unfold toggleLine
  rw [hdone]
  show rewrite_line (ws ++ (("- [ ]".toList) ++ rest)) true = _
  unfold rewrite_line
  rw [if_pos rfl]
  rw [replaceOne_ws_append ("- [ ]".toList) ("- [x]".toList) '-' (by decide) (by decide)
      ws _ hws,
    replaceOne_at_start _ _ _ (by decide)]
  have hnoX : pyContains ("- [X]".toList) (ws ++ (("- [x]".toList) ++ rest)) = false := by
    rw [pyContains_ws_append ("- [X]".toList) '-' (by decide) (by decide) ws _ hws,
      pyContains_X_over_x]
    exact hc
  rw [replaceOne_of_not_contains _ _ _ hnoX,
    completionSub_ws_append ws (("- [x]".toList) ++ rest) hws rfl, completionSub_block_x]

/-- One user toggle of a line made of whitespace, the checked prefix and a
checkbox-free remainder: the box is unchecked and completion markers are
removed from the remainder. -/
theorem toggleLine_uncheck_step (ws rest : List Char) (hws : ws.all pySpace = true)
    (hc : pyContains ("- [X]".toList) rest = false) :
    toggleLine (ws ++ ("- [x]".toList) ++ rest) =
      ws ++ ("- [ ]".toList) ++ completionSub rest := by
  rw [List.append_assoc ws (("- [x]".toList)) rest,
    List.append_assoc ws (("- [ ]".toList)) (completionSub rest)]
  have hdone : lineIsDone (ws ++ (("- [x]".toList) ++ rest)) = true := by
    unfold lineIsDone
    rw [pyContains_ws_append ("- [x]".toList) '-' (by decide) (by decide) ws _ hws,
      pyContains_x_at_x]
    rfl
  unfold toggleLine
  rw [hdone]
  show rewrite_line (ws ++ (("- [x]".toList) ++ rest)) false = _
  unfold rewrite_line
  rw [if_neg (by simp)]
  rw [replaceOne_ws_append ("- [x]".toList) ("- [ ]".toList) '-' (by decide) (by decide)
      ws _ hws,
    replaceOne_at_start _ _ _ (by decide)]
  have hnoX : pyContains ("- [X]".toList) (ws ++ (("- [ ]".toList) ++ rest)) = false := by
    rw [pyContains_ws_append ("- [X]".toList) '-' (by decide) (by decide) ws _ hws,
      pyContains_X_over_o]
    exact hc
  rw [replaceOne_of_not_contains _ _ _ hnoX,
    completionSub_ws_append ws (("- [ ]".toList) ++ rest) hws rfl, completionSub_block_o]

/-- No checkbox spelling occurs as a substring. -/
def noCheckbox (s : List Char) : Bool :=
  !(pyContains ("- [ ]".toList) s || pyContains ("- [x]".toList) s ||
    pyContains ("- [X]".toList) s)

/-- C3 as stated is false: the task line `- [X] task` (which carries no
completion marker) toggled twice comes back with a lowercase checked box,
so the result is not string-equal to the original minus completion
markers. -/
theorem C3_counterexample :
    toggleLine (toggleLine ("- [X] task".toList)) = ("- [x] task".toList) ∧
      toggleLine (toggleLine ("- [X] task".toList)) ≠ ("- [X] task".toList) :=
  ⟨by decide, by decide⟩

/-- C3 amended: for every task line made of leading whitespace, a canonical
checkbox prefix `- [ ]` or `- [x]`, and a remainder in which no checkbox
spelling occurs (also after completion-marker removal, and with marker
removal idempotent on the remainder), toggling the line twice through the
route's state detection returns exactly the original line minus its
completion markers. -/
theorem C3_amended_double_toggle (ws p rest : List Char)
    (hws : ws.all pySpace = true)
    (hp : p = ("- [ ]".toList) ∨ p = ("- [x]".toList))
    (h1 : noCheckbox rest = true)
    (h2 : noCheckbox (completionSub rest) = true)
    (h3 : completionSub (completionSub rest) = completionSub rest) :
    toggleLine (toggleLine (ws ++ p ++ rest)) = completionSub (ws ++ p ++ rest) := by
  have split1 : (pyContains ("- [ ]".toList) rest = false ∧
      pyContains ("- [x]".toList) rest = false) ∧
      pyContains ("- [X]".toList) rest = false := by
    simpa [noCheckbox, Bool.or_eq_false_iff] using h1
  have split2 : (pyContains ("- [ ]".toList) (completionSub rest) = false ∧
      pyContains ("- [x]".toList) (completionSub rest) = false) ∧
      pyContains ("- [X]".toList) (completionSub rest) = false := by
    simpa [noCheckbox, Bool.or_eq_false_iff] using h2
  rcases hp with hp | hp <;> subst hp
  · rw [toggleLine_check_step ws rest hws split1.1.2 split1.2,
      toggleLine_uncheck_step ws (completionSub rest) hws split2.2, h3,
      List.append_assoc ws (("- [ ]".toList)) rest,
      completionSub_ws_append ws (("- [ ]".toList) ++ rest) hws rfl,
      completionSub_block_o, List.append_assoc]
  · rw [toggleLine_uncheck_step ws rest hws split1.2,
      toggleLine_check_step ws (completionSub rest) hws split2.1.2 split2.2, h3,
      List.append_assoc ws (("- [x]".toList)) rest,
      completionSub_ws_append ws (("- [x]".toList) ++ rest) hws rfl,
      completionSub_block_x, List.append_assoc]

/-- Witness for C3 at the line `- [x] task ✅ 2024-05-05`: toggling twice
gives `- [x] task`, the original minus its completion marker. -/
theorem C3_witness :
    toggleLine (toggleLine (([] : List Char) ++ ("- [x]".toList) ++
        (" task ✅ 2024-05-05".toList))) =
      completionSub (([] : List Char) ++ ("- [x]".toList) ++
        (" task ✅ 2024-05-05".toList)) :=
  C3_amended_double_toggle [] ("- [x]".toList) (" task ✅ 2024-05-05".toList)
    (by decide) (Or.inr rfl) (by decide) (by decide) (by decide)

/-! C4: the date sort.  Spec-side total preorder written from the claim's
wording, and the standard stable-sort properties of `sortDate`. -/

/-- A record field is well formed when a present value is nonempty; records
produced by the parser always satisfy this, since the token regexes capture
nonempty groups. -/
def goodOpt (o : Option (List Char)) : Prop := o ≠ some []

/-- Claim-side context tail of the topic chain: has-context before
no-context, then context ascending, case-insensitive. -/
def specCtxLe (a b : Todo) : Prop :=
  match a.context, b.context with
  | some _, none => True
  | none, some _ => False
  | none, none => True
  | some ca, some cb => lcLower ca < lcLower cb ∨ lcLower ca = lcLower cb

/-- Claim-side title link of the topic chain. -/
def specTitleChain (a b : Todo) : Prop :=
  lcLower a.title < lcLower b.title ∨
    (lcLower a.title = lcLower b.title ∧ specCtxLe a b)

/-- Claim-side section link of the topic chain. -/
def specSecChain (a b : Todo) : Prop :=
  lcLower a.sectionLabel < lcLower b.sectionLabel ∨
    (lcLower a.sectionLabel = lcLower b.sectionLabel ∧ specTitleChain a b)

/-- Claim-side full topic order: has-project before no-project, then
project, section, title ascending, then the context tail. -/
def specTopicLe (a b : Todo) : Prop :=
  match a.project, b.project with
  | some _, none => True
  | none, some _ => False
  | none, none => specSecChain a b
  | some pa, some pb =>
    lcLower pa < lcLower pb ∨ (lcLower pa = lcLower pb ∧ specSecChain a b)

/-- Claim-side date order: every record without a due date before every
record with one, dated records ascending by date, and ties within both
buckets broken by the full topic order. -/
def specDateLe (a b : Todo) : Prop :=
  match a.due, b.due with
  | none, some _ => True
  | some _, none => False
  | none, none => specTopicLe a b
  | some da, some db => dateLt da db ∨ (da = db ∧ specTopicLe a b)

/-- An inhabited list is not empty for the Boolean test. -/
theorem isEmpty_false_of_ne (s : List Char) (h : s ≠ []) : s.isEmpty = false := by
  cases s with
  | nil => exact absurd rfl h
  | cons c cs => rfl

/-- Evaluation of the presence flag on an absent field. -/
theorem optFlag_none : optFlag none = 1 := rfl

/-- Evaluation of the text key on an absent field. -/
theorem optLower_none : optLower none = [] := rfl

/-- Evaluation of the presence flag on a nonempty present field. -/
theorem optFlag_some (s : List Char) (h : s ≠ []) : optFlag (some s) = 0 := by
  simp [optFlag, isEmpty_false_of_ne s h]

/-- Evaluation of the text key on a nonempty present field. -/
theorem optLower_some (s : List Char) (h : s ≠ []) : optLower (some s) = lcLower s := by
  simp [optLower, isEmpty_false_of_ne s h]

/-- The context components of the source key realise the claim's context
tail. -/
theorem ctx_le_iff (a b : Todo) (hca : goodOpt a.context) (hcb : goodOpt b.context) :
    (optFlag a.context < optFlag b.context ∨
      (optFlag a.context = optFlag b.context ∧ optLower a.context ≤ optLower b.context)) ↔
    specCtxLe a b := by
  rcases ha : a.context with _ | ca <;> rcases hb : b.context with _ | cb
  · simp [optFlag, optLower, specCtxLe, ha, hb]
  · have hcb' : cb ≠ [] := fun e => hcb (by rw [hb, e])
    simp [optFlag, optLower, specCtxLe, ha, hb, isEmpty_false_of_ne cb hcb']
  · have hca' : ca ≠ [] := fun e => hca (by rw [ha, e])
    simp [optFlag, optLower, specCtxLe, ha, hb, isEmpty_false_of_ne ca hca']
  · have hca' : ca ≠ [] := fun e => hca (by rw [ha, e])
    have hcb' : cb ≠ [] := fun e => hcb (by rw [hb, e])
    simp [optFlag, optLower, specCtxLe, ha, hb, isEmpty_false_of_ne ca hca',
      isEmpty_false_of_ne cb hcb', le_iff_lt_or_eq]

/-- The source topic key under lexicographic tuple comparison realises the
claim's topic chain, on records with well-formed option fields. -/
theorem topic_le_iff (a b : Todo) (hpa : goodOpt a.project) (hpb : goodOpt b.project)
    (hca : goodOpt a.context) (hcb : goodOpt b.context) :
    sort_key_topic a ≤ sort_key_topic b ↔ specTopicLe a b := by
  have hctx := ctx_le_iff a b hca hcb
  unfold sort_key_topic
  rcases ha : a.project with _ | pa <;> rcases hb : b.project with _ | pb
  · simp [Prod.Lex.le_iff, specTopicLe, ha, hb, specSecChain, specTitleChain,
      optFlag_none, optLower_none, hctx]
  · have hpb' : pb ≠ [] := fun e => hpb (by rw [hb, e])
    simp [Prod.Lex.le_iff, specTopicLe, ha, hb, optFlag_none, optLower_none,
      optFlag_some pb hpb', optLower_some pb hpb']
  · have hpa' : pa ≠ [] := fun e => hpa (by rw [ha, e])
    simp [Prod.Lex.le_iff, specTopicLe, ha, hb, optFlag_none, optLower_none,
      optFlag_some pa hpa', optLower_some pa hpa']
  · have hpa' : pa ≠ [] := fun e => hpa (by rw [ha, e])
    have hpb' : pb ≠ [] := fun e => hpb (by rw [hb, e])
    simp [Prod.Lex.le_iff, specTopicLe, ha, hb, specSecChain, specTitleChain,
      optFlag_some pa hpa', optLower_some pa hpa', optFlag_some pb hpb',
      optLower_some pb hpb', hctx]

/-- The lexicographic date triple realises Python's date order. -/
theorem dateTriple_lt_iff (x y : Date) : dateTriple x < dateTriple y ↔ dateLt x y := by
  simp [dateTriple, Prod.Lex.lt_iff, dateLt]

/-- The lexicographic date triple is injective. -/
theorem dateTriple_inj (x y : Date) : dateTriple x = dateTriple y ↔ x = y := by
  cases x with
  | mk xy xm xd =>
    cases y with
    | mk yy ym yd => simp [dateTriple, Prod.ext_iff, Date.mk.injEq, and_assoc]

/-- The source date key under lexicographic tuple comparison realises the
claim's date order, on records with well-formed option fields. -/
theorem date_le_iff (a b : Todo) (hpa : goodOpt a.project) (hpb : goodOpt b.project)
    (hca : goodOpt a.context) (hcb : goodOpt b.context) :
    sort_key_date a ≤ sort_key_date b ↔ specDateLe a b := by
  have htop := topic_le_iff a b hpa hpb hca hcb
  unfold sort_key_date
  rcases ha : a.due with _ | da <;> rcases hb : b.due with _ | db
  · simp [Prod.Lex.le_iff, specDateLe, ha, hb, htop, dateTriple_lt_iff, dateLt]
  · simp [Prod.Lex.le_iff, specDateLe, ha, hb]
  · simp [Prod.Lex.le_iff, specDateLe, ha, hb]
  · simp [Prod.Lex.le_iff, specDateLe, ha, hb, htop, dateTriple_lt_iff, dateTriple_inj]

/-- Insertion permutes. -/
theorem insertK_perm (x : Todo) : ∀ l : List Todo, List.Perm (insertK x l) (x :: l) := by
  intro l
  induction l with
  | nil => exact List.Perm.refl _
  | cons h t ih =>
    unfold insertK
    by_cases hle : sort_key_date x ≤ sort_key_date h
    · rw [if_pos hle]
    · rw [if_neg hle]
      exact (ih.cons h).trans (List.Perm.swap x h t)

/-- The stable sort permutes its input. -/
theorem sortDate_perm : ∀ l : List Todo, List.Perm (sortDate l) l := by
  intro l
  induction l with
  | nil => exact List.Perm.refl _
  | cons x xs ih =>
    exact (insertK_perm x (sortDate xs)).trans (ih.cons x)

/-- Insertion into a key-sorted run keeps it key-sorted. -/
theorem insertK_pairwise (x : Todo) :
    ∀ l : List Todo, l.Pairwise (fun a b => sort_key_date a ≤ sort_key_date b) →
      (insertK x l).Pairwise (fun a b => sort_key_date a ≤ sort_key_date b) := by
  intro l
  induction l with
  | nil => intro _; exact List.pairwise_singleton _ _
  | cons h t ih =>
    intro hp
    rw [List.pairwise_cons] at hp
    unfold insertK
    by_cases hle : sort_key_date x ≤ sort_key_date h
    · rw [if_pos hle]
      refine List.Pairwise.cons ?_ (List.Pairwise.cons hp.1 hp.2)
      intro y hy
      rcases List.mem_cons.mp hy with rfl | hyt
      · exact hle
      · exact hle.trans (hp.1 y hyt)
    · rw [if_neg hle]
      refine List.Pairwise.cons ?_ (ih hp.2)
      intro y hy
      rcases List.mem_cons.mp ((insertK_perm x t).mem_iff.mp hy) with rfl | hyt
      · exact le_of_not_le hle
      · exact hp.1 y hyt

/-- The stable sort is sorted in the source key. -/
theorem sortDate_pairwise : ∀ l : List Todo,
    (sortDate l).Pairwise (fun a b => sort_key_date a ≤ sort_key_date b) := by
  intro l
  induction l with
  | nil => exact List.Pairwise.nil
  | cons x xs ih => exact insertK_pairwise x _ ih

/-- Insertion of an element outside a filter class leaves the class
untouched. -/
theorem insertK_filter_neg (x : Todo) (p : Todo → Bool) (hx : p x = false) :
    ∀ l : List Todo, (insertK x l).filter p = l.filter p := by
  intro l
  induction l with
  | nil => simp [insertK, hx]
  | cons h t ih =>
    unfold insertK
    by_cases hle : sort_key_date x ≤ sort_key_date h
    · rw [if_pos hle]
      simp [List.filter_cons, hx]
    · rw [if_neg hle]
      simp [List.filter_cons, ih]

/-- Insertion of an element that compares at most every member of its
filter class puts it at the front of the class. -/
theorem insertK_filter_pos (x : Todo) (p : Todo → Bool) (hx : p x = true)
    (hall : ∀ h, p h = true → sort_key_date x ≤ sort_key_date h) :
    ∀ l : List Todo, (insertK x l).filter p = x :: l.filter p := by
  intro l
  induction l with
  | nil => simp [insertK, hx]
  | cons h t ih =>
    unfold insertK
    by_cases hle : sort_key_date x ≤ sort_key_date h
    · rw [if_pos hle]
      simp [List.filter_cons, hx]
    · rw [if_neg hle]
      have hh : p h = false := by
        cases hph : p h
        · rfl
        · exact absurd (hall h hph) hle
      simp [List.filter_cons, hh, ih]

/-- Stability of the sort: every key-equivalence class keeps its input
order.  The class predicate must place its members pairwise at equal
keys (here phrased through the order). -/
theorem sortDate_filter (p : Todo → Bool)
    (hp : ∀ a b, p a = true → p b = true → sort_key_date a ≤ sort_key_date b) :
    ∀ l : List Todo, (sortDate l).filter p = l.filter p := by
  intro l
  induction l with
  | nil => rfl
  | cons x xs ih =>
    unfold sortDate
    cases hx : p x
    · rw [insertK_filter_neg x p hx, ih]
      simp [List.filter_cons, hx]
    · rw [insertK_filter_pos x p hx (fun h hh => hp x h hx hh), ih]
      simp [List.filter_cons, hx]

/-- C4: sorting in date mode permutes the records, orders them by the
claim's chain — every record without a due date before every record with
one, dated records ascending by date, ties in both buckets broken by the
full topic order (has-project first, then project, section, title,
has-context, context, case-insensitively) — and preserves input order on
exact key ties.  Records are assumed well formed: a present project or
context is nonempty, as the parser guarantees. -/
theorem C4_sort_date (todos : List Todo)
    (hgood : ∀ t ∈ todos, t.project ≠ some [] ∧ t.context ≠ some []) :
    List.Perm (sortDate todos) todos ∧
    (sortDate todos).Pairwise specDateLe ∧
    (∀ k : DateKey,
      (sortDate todos).filter
        (fun t => decide (sort_key_date t ≤ k) && decide (k ≤ sort_key_date t)) =
      todos.filter
        (fun t => decide (sort_key_date t ≤ k) && decide (k ≤ sort_key_date t))) := by
  have hperm := sortDate_perm todos
  refine ⟨hperm, ?_, ?_⟩
  · have hpw := sortDate_pairwise todos
    refine hpw.imp_of_mem ?_
    intro a b hma hmb hr
    have hga := hgood a (hperm.subset hma)
    have hgb := hgood b (hperm.subset hmb)
    exact (date_le_iff a b hga.1 hgb.1 hga.2 hgb.2).mp hr
  · intro k
    apply sortDate_filter
    intro a b hpa hpb
    rw [Bool.and_eq_true, decide_eq_true_eq, decide_eq_true_eq] at hpa hpb
    exact le_trans hpa.1 hpb.2

/-- Witness for C4 on a two-record list: a dated record listed first and an
undated record listed second come out sorted by the claim's chain. -/
theorem C4_witness :
    (sortDate
      [{ line_index := 0, marker := none, title := ("a".toList), sectionLabel := []
         project := none, context := none, due := some ⟨2024, 1, 2⟩
         reference := none, done := false, raw_line := [] },
       { line_index := 1, marker := none, title := ("b".toList), sectionLabel := []
         project := some ("p".toList), context := none, due := none
         reference := none, done := false, raw_line := [] }]).Pairwise specDateLe :=
  (C4_sort_date
    [{ line_index := 0, marker := none, title := ("a".toList), sectionLabel := []
       project := none, context := none, due := some ⟨2024, 1, 2⟩
       reference := none, done := false, raw_line := [] },
     { line_index := 1, marker := none, title := ("b".toList), sectionLabel := []
       project := some ("p".toList), context := none, due := none
       reference := none, done := false, raw_line := [] }] (by decide)).2.1

end TodosApp
